import Mathlib

/-!
Shallow embedding of `src/migrator.js` (pb82/teams_migrator), a one-shot
MongoDB shell script that scans the `teams` collection for duplicate `code`
values, classifies each duplicate pair, and (outside of dry-run mode)
rewrites the `code` of the first record of a migratable pair.

Modelling conventions:
* A JS value that may be `undefined` (array index past the end, missing
  lowest level) is an `Option`; a thrown `TypeError` from dereferencing
  `undefined` is propagated as a `crash` outcome / `RunError.typeError`.
* `db.teams` is a `List Team`; the aggregation, `find` filter and `update`
  calls are modelled as pure list operations, with the issued effects
  (updates applied, commands printed in dry-run, group codes fetched)
  collected in a `RunResult`.
-/

namespace Migrator

/-- Team document of the `teams` collection.  `businessObjects` models the
`business-objects` field, a mapping from hierarchy-level label to the list
of business-object guids at that level (a JS object, here an association
list with distinct keys in property order). -/
structure Team where
  _id : String
  name : String
  code : String
  defaultTeam : Bool
  businessObjects : List (String × List String)
  users : List String
deriving DecidableEq

/-- Stable descending insertion by string length: the model of one step of
`Array.prototype.sort` with comparator `(a, b) => b.length - a.length`. -/
def insertDesc (k : String) : List String → List String
  | [] => [k]
  | x :: xs => if x.length < k.length then k :: x :: xs else x :: insertDesc k xs

/-- Sorting by descending string length, the model of
`hierarchy.sort(function (a, b) { return b.length - a.length; })`. -/
def sortDesc : List String → List String
  | [] => []
  | x :: xs => insertDesc x (sortDesc xs)

/-- JS `getLowestLevel(team)`: the first element of the keys of
`team["business-objects"]` sorted by descending length.  On an empty
mapping the JS expression yields `undefined`, here `none`. -/
def getLowestLevel (team : Team) : Option String :=
  (sortDesc (team.businessObjects.map Prod.fst)).head?

/-- Membership in the ECMAScript regex class `\s`, as used by
`.replace(/\s/g, "_")`: tab, line feed, vertical tab, form feed, carriage
return, space, no-break space, the Ogham space mark, the Unicode `Zs` space
range U+2000–U+200A, the line and paragraph separators, the narrow no-break
space, the medium mathematical space, the ideographic space and the
zero-width no-break space U+FEFF. -/
def isWs (c : Char) : Bool :=
  c = '\t' || c = '\n' || c = '\x0b' || c = '\x0c' || c = '\r' || c = ' ' ||
  c = '\u00a0' || c = '\u1680' || ('\u2000' ≤ c && c ≤ '\u200a') ||
  c = '\u2028' || c = '\u2029' || c = '\u202f' || c = '\u205f' ||
  c = '\u3000' || c = '\ufeff'

/-- Apply the whitespace-to-underscore substitution to a whole string. -/
def replaceWs (s : String) : String :=
  ⟨s.data.map (fun c => if isWs c then '_' else c)⟩

/-- JS `createTeamCode(team)` with the global `domain` made an explicit
argument.  `[domain, guidString, team.name].join("-")` is
`String.intercalate "-" [...]`.  When the team has no business objects,
`lowestLevel` is `undefined` and the JS code throws on
`team["business-objects"][lowestLevel].join`, modelled by `none`. -/
def createTeamCode (domain : String) (team : Team) : Option String :=
  match getLowestLevel team with
  | none => none
  | some lowestLevel =>
    match team.businessObjects.lookup lowestLevel with
    | none => none
    | some lowestLevelBOs =>
      some (replaceWs (String.intercalate "-"
        [domain, String.intercalate "-" lowestLevelBOs, team.name]))

/-- JS `checkDups(dups)`.  `dups[0]` / `dups[1]` past the end of the array
are `undefined`, and `getLowestLevel(undefined)` throws, modelled by `none`.
In the same-level branch the two sub-branches differ only in what they log;
both return `false`, and the user test is kept for faithfulness. -/
def checkDups (dups : List Team) : Option Bool :=
  match dups[0]?, dups[1]? with
  | some fa, some fb =>
    let lowestA := getLowestLevel fa
    let lowestB := getLowestLevel fb
    if lowestA = lowestB then
      if fa.users.length ≠ 0 ∧ fb.users.length ≠ 0 then
        some false
      else
        some false
    else
      if fa.users.length ≠ 0 ∧ fb.users.length ≠ 0 then
        some true
      else
        some false
  | _, _ => none

/-- Result document of the `$group` aggregation: only `_id` (the shared
code) and `count` — it has no `defaultTeam` field. -/
structure GroupDoc where
  _id : String
  count : Nat
deriving DecidableEq

/-- JS property access `team.defaultTeam` in the main loop, where `team` is
an aggregation document `{_id, count}`: the field is absent, so the access
yields `undefined`, which is falsy in `if (team.defaultTeam) continue`. -/
def GroupDoc.defaultTeam (_g : GroupDoc) : Bool := false

/-- The update command `{query: {_id: ...}, document: ...}` passed to
`db.teams.update`. -/
structure Update where
  query_id : String
  document : Team
deriving DecidableEq

/-- Fatal conditions of a run: the two startup precondition failures and a
thrown `TypeError` (dereferencing `undefined`). -/
inductive RunError where
  | missingDomain
  | wrongDatabase
  | typeError
deriving DecidableEq

/-- Outcome of the loop body for one duplicate group. -/
inductive GroupOutcome where
  | skipped
  | noAction
  | migrate (cmd : Update)
  | crash
deriving DecidableEq

/-- JS `db.teams.find({defaultTeam: false, code: c}).toArray()`. -/
def nonDefaultWithCode (teams : List Team) (c : String) : List Team :=
  teams.filter (fun t => !t.defaultTeam && t.code == c)

/-- Number of team documents with code `c`: the `count` of the `$group`
aggregation for that code. -/
def countCode (teams : List Team) (c : String) : Nat :=
  (teams.filter (fun t => t.code == c)).length

/-- The distinct codes of the collection in first-occurrence order: the
`_id`s produced by the `$group` aggregation. -/
def distinctCodes (teams : List Team) : List String :=
  teams.foldl (fun acc t => if t.code ∈ acc then acc else acc ++ [t.code]) []

/-- The `relevantResults` filter: codes whose group count exceeds 1. -/
def relevantCodes (teams : List Team) : List String :=
  (distinctCodes teams).filter (fun c => 1 < countCode teams c)

/-- Classification-and-rewrite part of the loop body, given the fetched
`dups` array: `checkDups`, then on `true` the first record is migrated to
`createTeamCode`.  A `none` from either models the thrown `TypeError`. -/
def classifyGroup (domain : String) (dups : List Team) : GroupOutcome :=
  match checkDups dups with
  | none => GroupOutcome.crash
  | some false => GroupOutcome.noAction
  | some true =>
    match dups[0]? with
    | none => GroupOutcome.crash
    | some teamToMigrate =>
      match createTeamCode domain teamToMigrate with
      | none => GroupOutcome.crash
      | some newCode =>
        GroupOutcome.migrate ⟨teamToMigrate._id, { teamToMigrate with code := newCode }⟩

/-- Loop body of `main` for the duplicate group with shared code `c`: the
(vacuous) `defaultTeam` test on the aggregation document, then fetch of the
non-default records with that code and classification. -/
def processGroup (domain : String) (teams : List Team) (c : String) : GroupOutcome :=
  if (GroupDoc.mk c (countCode teams c)).defaultTeam then GroupOutcome.skipped
  else classifyGroup domain (nonDefaultWithCode teams c)

/-- Observable effects of a run: storage updates actually issued, update
commands printed in dry-run, codes for which a `find` was issued, and the
error that stopped the run, if any. -/
structure RunResult where
  updates : List Update
  printed : List Update
  fetched : List String
  err : Option RunError
deriving DecidableEq

/-- The `for` loop of `main` over the relevant duplicate groups.  A crash
aborts the run at that group; a migrated command is printed in dry-run mode
and issued as a storage update otherwise. -/
def processGroups (domain : String) (dryrun : Bool) (teams : List Team) :
    List String → RunResult
  | [] => ⟨[], [], [], none⟩
  | c :: cs =>
    match processGroup domain teams c with
    | GroupOutcome.skipped => processGroups domain dryrun teams cs
    | GroupOutcome.crash => ⟨[], [], [c], some RunError.typeError⟩
    | GroupOutcome.noAction =>
      let r := processGroups domain dryrun teams cs
      ⟨r.updates, r.printed, c :: r.fetched, r.err⟩
    | GroupOutcome.migrate cmd =>
      let r := processGroups domain dryrun teams cs
      if dryrun then ⟨r.updates, cmd :: r.printed, c :: r.fetched, r.err⟩
      else ⟨cmd :: r.updates, r.printed, c :: r.fetched, r.err⟩

/-- JS `main()`: the `domain` sanity check, the `dryrun` default to `true`,
the database-name guard, then the loop over the relevant duplicate groups
(an empty relevant list just completes with no effects). -/
def main (domain? : Option String) (dryrun? : Option Bool) (dbName : String)
    (teams : List Team) : RunResult :=
  match domain? with
  | none => ⟨[], [], [], some RunError.missingDomain⟩
  | some domain =>
    let dryrun := dryrun?.getD true
    if dbName = "fh-aaa" then
      processGroups domain dryrun teams (relevantCodes teams)
    else
      ⟨[], [], [], some RunError.wrongDatabase⟩

/-- Concrete team of the spec's identifier example: name `"Test Team"`,
lowest-level business objects `["g1", "g2"]`. -/
def exTeam : Team :=
  ⟨"t1", "Test Team", "dup", false, [("lvl", ["g1", "g2"])], ["u1"]⟩

/-- Concrete team on a different (longer-labelled) hierarchy level than
`exTeam`, with one user, sharing the code `"dup"`. -/
def exTeamB : Team :=
  ⟨"t2", "Other", "dup", false, [("deeper7", ["g3"])], ["u2"]⟩

/-- Concrete team without users sharing the code `"dup"`. -/
def exTeamC : Team :=
  ⟨"t3", "Third", "dup", false, [("z", ["g4"])], []⟩

/-- Collection with a single duplicate group of count 3 (code `"dup"`). -/
def threeTeams : List Team := [exTeam, exTeamB, exTeamC]

/-- Collection made of two default teams sharing the code `"X"`. -/
def dfltTeams : List Team :=
  [⟨"d1", "Default One", "X", true, [("a", ["g"])], ["u"]⟩,
   ⟨"d2", "Default Two", "X", true, [("a", ["g"])], ["u"]⟩]

/-- Team whose stored code already equals the code `createTeamCode` computes
for it under domain `"acme"`. -/
def teamA : Team :=
  ⟨"a1", "Test", "acme-g1-Test", false, [("x", ["g1"])], ["u1"]⟩

/-- Duplicate partner of `teamA` on a different hierarchy level, with a
user. -/
def teamB : Team :=
  ⟨"b1", "Other", "acme-g1-Test", false, [("yy", ["g2"])], ["u2"]⟩

/-- Collection where the eligible pair's first record keeps its own code. -/
def collideTeams : List Team := [teamA, teamB]

/-- Team with two hierarchy levels, the longer label second. -/
def exTwoLvl : Team :=
  ⟨"t4", "Nested", "c2", false, [("aa", ["g5"]), ("bbb", ["g6"])], ["u3"]⟩

/-- Team on the same hierarchy level as `exTeam`, with a user, sharing the
code `"dup"`. -/
def exTeamD : Team :=
  ⟨"t5", "Fourth", "dup", false, [("lvl", ["g7"])], ["u4"]⟩

/-- Eligibility condition of the classifier on a pair: different lowest
hierarchy levels and at least one user on each record. -/
abbrev eligiblePair (fa fb : Team) : Prop :=
  getLowestLevel fa ≠ getLowestLevel fb ∧
    fa.users.length ≠ 0 ∧ fb.users.length ≠ 0

theorem mem_insertDesc {x k : String} {l : List String} :
    x ∈ insertDesc k l ↔ x = k ∨ x ∈ l := by
  induction l with
  | nil => simp [insertDesc]
  | cons y ys ih =>
    by_cases hlt : y.length < k.length
    · simp only [insertDesc, if_pos hlt, List.mem_cons]
    · simp only [insertDesc, if_neg hlt, List.mem_cons, ih]
      tauto

theorem insertDesc_pairwise {k : String} {l : List String}
    (h : l.Pairwise (fun a b => b.length ≤ a.length)) :
    (insertDesc k l).Pairwise (fun a b => b.length ≤ a.length) := by
  induction l with
  | nil => simp [insertDesc]
  | cons y ys ih =>
    rcases List.pairwise_cons.mp h with ⟨hy, hys⟩
    by_cases hlt : y.length < k.length
    · rw [insertDesc, if_pos hlt]
      refine List.pairwise_cons.mpr ⟨?_, h⟩
      intro b hb
      rcases List.mem_cons.mp hb with rfl | hb
      · exact Nat.le_of_lt hlt
      · exact Nat.le_trans (hy b hb) (Nat.le_of_lt hlt)
    · rw [insertDesc, if_neg hlt]
      refine List.pairwise_cons.mpr ⟨?_, ih hys⟩
      intro b hb
      rcases mem_insertDesc.mp hb with rfl | hb
      · exact Nat.le_of_not_lt hlt
      · exact hy b hb

theorem sortDesc_pairwise (l : List String) :
    (sortDesc l).Pairwise (fun a b => b.length ≤ a.length) := by
  induction l with
  | nil => simp [sortDesc]
  | cons x xs ih =>
    rw [sortDesc]
    exact insertDesc_pairwise ih

theorem mem_sortDesc {x : String} {l : List String} :
    x ∈ sortDesc l ↔ x ∈ l := by
  induction l with
  | nil => simp [sortDesc]
  | cons y ys ih =>
    rw [sortDesc]
    simp [mem_insertDesc, ih]

theorem sortDesc_ne_nil {l : List String} (h : l ≠ []) : sortDesc l ≠ [] := by
  cases l with
  | nil => exact absurd rfl h
  | cons y ys =>
    rw [sortDesc]
    cases hs : sortDesc ys with
    | nil => simp [insertDesc]
    | cons z zs =>
      rw [insertDesc]
      split <;> simp

theorem head_sortDesc_max {l : List String} {k : String}
    (h : (sortDesc l).head? = some k) :
    k ∈ l ∧ ∀ x ∈ l, x.length ≤ k.length := by
  cases hs : sortDesc l with
  | nil => rw [hs] at h; simp at h
  | cons k0 rest =>
    rw [hs] at h
    simp only [List.head?_cons, Option.some.injEq] at h
    subst h
    have hpw := sortDesc_pairwise l
    rw [hs] at hpw
    rcases List.pairwise_cons.mp hpw with ⟨hk, _⟩
    constructor
    · exact mem_sortDesc.mp (by rw [hs]; exact List.mem_cons_self k0 rest)
    · intro x hx
      have hx2 : x ∈ k0 :: rest := by rw [← hs]; exact mem_sortDesc.mpr hx
      rcases List.mem_cons.mp hx2 with rfl | hx3
      · exact Nat.le_refl _
      · exact hk x hx3

theorem lookup_of_mem_keys {k : String} {l : List (String × List String)}
    (h : k ∈ l.map Prod.fst) : ∃ v, l.lookup k = some v := by
  induction l with
  | nil => simp at h
  | cons p ps ih =>
    rcases p with ⟨a, b⟩
    simp only [List.map_cons, List.mem_cons] at h
    by_cases hk : (k == a) = true
    · exact ⟨b, by simp [List.lookup_cons, hk]⟩
    · rcases h with h | h
      · exact absurd (by simp [h]) hk
      · rcases ih h with ⟨v, hv⟩
        exact ⟨v, by simp [List.lookup_cons, hk, hv]⟩

theorem exists_lowest {team : Team} (h : team.businessObjects ≠ []) :
    ∃ k, getLowestLevel team = some k := by
  have hne : team.businessObjects.map Prod.fst ≠ [] := by
    intro hmap
    exact h (List.map_eq_nil_iff.mp hmap)
  cases hs : sortDesc (team.businessObjects.map Prod.fst) with
  | nil => exact absurd hs (sortDesc_ne_nil hne)
  | cons k rest => exact ⟨k, by rw [getLowestLevel, hs]; rfl⟩

theorem checkDups_pair_eq (fa fb : Team) :
    checkDups [fa, fb] =
      (if getLowestLevel fa = getLowestLevel fb then
        if fa.users.length ≠ 0 ∧ fb.users.length ≠ 0 then some false else some false
      else
        if fa.users.length ≠ 0 ∧ fb.users.length ≠ 0 then some true else some false) := rfl

theorem checkDups_pair_true {fa fb : Team} (h : eligiblePair fa fb) :
    checkDups [fa, fb] = some true := by
  rw [checkDups_pair_eq, if_neg h.1, if_pos ⟨h.2.1, h.2.2⟩]

theorem checkDups_pair_false {fa fb : Team} (h : ¬ eligiblePair fa fb) :
    checkDups [fa, fb] = some false := by
  rw [checkDups_pair_eq]
  by_cases heq : getLowestLevel fa = getLowestLevel fb
  · simp [heq]
  · by_cases hu : fa.users.length ≠ 0 ∧ fb.users.length ≠ 0
    · exact absurd ⟨heq, hu.1, hu.2⟩ h
    · rw [if_neg heq, if_neg hu]

theorem intercalate3 (a b c : String) :
    String.intercalate "-" [a, b, c] = a ++ "-" ++ b ++ "-" ++ c := by
  show String.intercalate.go a "-" [b, c] = a ++ "-" ++ b ++ "-" ++ c
  rw [String.intercalate.go, String.intercalate.go, String.intercalate.go]

theorem replaceWs_length (s : String) : (replaceWs s).length = s.length := by
  cases s with
  | mk data => simp [replaceWs, String.length]

theorem replaceWs_ne_empty {s : String} (h : s.length ≠ 0) : replaceWs s ≠ "" := by
  intro he
  apply h
  have hlen := congrArg String.length he
  rw [replaceWs_length] at hlen
  simpa using hlen

theorem processGroups_dryrun_updates (domain : String) (teams : List Team)
    (cs : List String) : (processGroups domain true teams cs).updates = [] := by
  induction cs with
  | nil => rfl
  | cons c cs ih =>
    rw [processGroups]
    cases hpg : processGroup domain teams c with
    | skipped => exact ih
    | crash => rfl
    | noAction => simpa using ih
    | migrate cmd => simpa using ih

theorem updates_sourced (domain : String) (dryrun : Bool) (teams : List Team)
    (cs : List String) (u : Update)
    (hu : u ∈ (processGroups domain dryrun teams cs).updates) :
    ∃ c2, c2 ∈ cs ∧ processGroup domain teams c2 = GroupOutcome.migrate u := by
  induction cs with
  | nil => simp [processGroups] at hu
  | cons c cs ih =>
    rw [processGroups] at hu
    cases hpg : processGroup domain teams c with
    | skipped =>
      rw [hpg] at hu
      rcases ih hu with ⟨c2, h1, h2⟩
      exact ⟨c2, List.mem_cons_of_mem _ h1, h2⟩
    | crash => rw [hpg] at hu; simp at hu
    | noAction =>
      rw [hpg] at hu
      simp only at hu
      rcases ih hu with ⟨c2, h1, h2⟩
      exact ⟨c2, List.mem_cons_of_mem _ h1, h2⟩
    | migrate cmd =>
      rw [hpg] at hu
      cases hb : dryrun with
      | true =>
        rw [hb] at ih hu
        simp at hu
        rcases ih hu with ⟨c2, h1, h2⟩
        exact ⟨c2, List.mem_cons_of_mem _ h1, h2⟩
      | false =>
        rw [hb] at ih hu
        simp at hu
        rcases hu with rfl | hu
        · exact ⟨c, List.mem_cons_self c cs, hpg⟩
        · rcases ih hu with ⟨c2, h1, h2⟩
          exact ⟨c2, List.mem_cons_of_mem _ h1, h2⟩

/-- C1: on a pair of records, `checkDups` answers `true` (eligible for
migration) exactly when the two lowest hierarchy levels differ and both
records have at least one user; in every other combination it answers
`false`, and a `false` answer never leads to a `migrate` outcome, so no
rewrite is performed. -/
theorem checkDups_pair_spec (fa fb : Team) :
    (checkDups [fa, fb] = some true ↔ eligiblePair fa fb) ∧
    (checkDups [fa, fb] = some false ↔ ¬ eligiblePair fa fb) ∧
    (∀ domain cmd, ¬ eligiblePair fa fb →
      classifyGroup domain [fa, fb] ≠ GroupOutcome.migrate cmd) := by
  refine ⟨⟨fun h => ?_, fun h => checkDups_pair_true h⟩,
          ⟨fun h => ?_, fun h => checkDups_pair_false h⟩,
          fun domain cmd h hmig => ?_⟩
  · by_contra hP
    rw [checkDups_pair_false hP] at h
    simp at h
  · intro he
    rw [checkDups_pair_true he] at h
    simp at h
  · have hck := checkDups_pair_false h
    simp [classifyGroup, hck] at hmig

/-- Witness for C1: a concrete different-level pair with users on both
sides is classified as eligible. -/
theorem checkDups_pair_spec_witness :
    checkDups [exTeam, exTeamB] = some true :=
  (checkDups_pair_spec exTeam exTeamB).1.mpr (by decide)

/-- C2: the computed replacement identifier is the domain, the dash-joined
business objects of the team's lowest hierarchy level, and the team name,
joined by `"-"`, with whitespace replaced by underscores.  Determinism is
immediate: `createTeamCode` is a function of its two arguments. -/
theorem createTeamCode_spec (domain : String) (team : Team) (ll : String)
    (bos : List String) (h1 : getLowestLevel team = some ll)
    (h2 : team.businessObjects.lookup ll = some bos) :
    createTeamCode domain team =
      some (replaceWs (domain ++ "-" ++ String.intercalate "-" bos ++ "-" ++ team.name)) := by
  simp [createTeamCode, h1, h2, intercalate3]

/-- Witness for C2: the spec's concrete example, domain `"acme"`, name
`"Test Team"`, lowest-level business objects `["g1", "g2"]`. -/
theorem createTeamCode_spec_witness :
    createTeamCode "acme" exTeam = some "acme-g1-g2-Test_Team" :=
  (createTeamCode_spec "acme" exTeam "lvl" ["g1", "g2"] (by decide) (by decide)).trans
    (by decide)

/-- C3 counterexample: an eligible different-level pair whose first record
is migrated to a code equal to its original one — the computed identifier
is not always distinct from the original. -/
theorem newCode_can_equal_original :
    eligiblePair teamA teamB ∧
    nonDefaultWithCode collideTeams "acme-g1-Test" = [teamA, teamB] ∧
    createTeamCode "acme" teamA = some teamA.code ∧
    processGroup "acme" collideTeams "acme-g1-Test" =
      GroupOutcome.migrate ⟨teamA._id, { teamA with code := teamA.code }⟩ := by decide

/-- C3 amended: for a duplicate pair with different levels and users on
both sides, whose first record has a non-empty business-objects mapping,
the resolver migrates exactly that first record to a non-empty new
identifier (which can coincide with the original identifier). -/
theorem migrate_selects_first (domain : String) (teams : List Team)
    (c : String) (fa fb : Team) (hd : nonDefaultWithCode teams c = [fa, fb])
    (helig : eligiblePair fa fb) (hbo : fa.businessObjects ≠ []) :
    ∃ nc, createTeamCode domain fa = some nc ∧ nc ≠ "" ∧
      processGroup domain teams c =
        GroupOutcome.migrate ⟨fa._id, { fa with code := nc }⟩ := by
  rcases exists_lowest hbo with ⟨ll, hll⟩
  have hmax := head_sortDesc_max
    (show (sortDesc (fa.businessObjects.map Prod.fst)).head? = some ll from hll)
  rcases lookup_of_mem_keys hmax.1 with ⟨bos, hbos⟩
  have hcreate : createTeamCode domain fa =
      some (replaceWs (String.intercalate "-"
        [domain, String.intercalate "-" bos, fa.name])) := by
    simp [createTeamCode, hll, hbos]
  refine ⟨_, hcreate, ?_, ?_⟩
  · apply replaceWs_ne_empty
    rw [intercalate3]
    have h1 : ("-" : String).length = 1 := rfl
    simp only [String.length_append, h1]
    omega
  · have hck : checkDups (nonDefaultWithCode teams c) = some true := by
      rw [hd]
      exact checkDups_pair_true helig
    have h0 : (nonDefaultWithCode teams c)[0]? = some fa := by rw [hd]; rfl
    simp [processGroup, GroupDoc.defaultTeam, classifyGroup, hck, h0, hcreate]

/-- Witness for C3 (amended): the concrete eligible pair of `exTeam` and
`exTeamB` migrates `exTeam`. -/
theorem migrate_selects_first_witness :
    ∃ nc, createTeamCode "acme" exTeam = some nc ∧ nc ≠ "" ∧
      processGroup "acme" [exTeam, exTeamB] "dup" =
        GroupOutcome.migrate ⟨exTeam._id, { exTeam with code := nc }⟩ :=
  migrate_selects_first "acme" [exTeam, exTeamB] "dup" exTeam exTeamB
    (by decide) (by decide) (by decide)

/-- C4: a duplicate pair with equal lowest levels, or with a record without
users, yields the `noAction` outcome; and every update a run issues stems
from a group whose outcome was `migrate`, so such groups never cause an
update. -/
theorem same_level_or_userless_frame (domain : String) (teams : List Team)
    (c : String) (fa fb : Team) (hd : nonDefaultWithCode teams c = [fa, fb])
    (hcond : getLowestLevel fa = getLowestLevel fb ∨
      fa.users.length = 0 ∨ fb.users.length = 0) :
    processGroup domain teams c = GroupOutcome.noAction ∧
    ∀ dryrun cs u, u ∈ (processGroups domain dryrun teams cs).updates →
      ∃ c2, c2 ∈ cs ∧ processGroup domain teams c2 = GroupOutcome.migrate u := by
  have hnot : ¬ eligiblePair fa fb := by
    intro he
    rcases hcond with h | h | h
    · exact he.1 h
    · exact he.2.1 h
    · exact he.2.2 h
  have hck : checkDups (nonDefaultWithCode teams c) = some false := by
    rw [hd]
    exact checkDups_pair_false hnot
  constructor
  · simp [processGroup, GroupDoc.defaultTeam, classifyGroup, hck]
  · intro dryrun cs u hu
    exact updates_sourced domain dryrun teams cs u hu

/-- Witness for C4: a concrete same-level pair with users on both sides
yields `noAction`. -/
theorem same_level_or_userless_frame_witness :
    processGroup "acme" [exTeam, exTeamD] "dup" = GroupOutcome.noAction :=
  (same_level_or_userless_frame "acme" [exTeam, exTeamD] "dup" exTeam exTeamD
    (by decide) (by decide)).1

/-- C5 (code bug): the `defaultTeam` test of the main loop reads the field
on the aggregation document `{_id, count}`, which never has it, so a group
made of default teams is not skipped: its code is fetched and the run
aborts with a `TypeError` instead of continuing. -/
theorem defaultGroup_not_skipped :
    countCode dfltTeams "X" = 2 ∧
    relevantCodes dfltTeams = ["X"] ∧
    (main (some "acme") (some true) "fh-aaa" dfltTeams).fetched = ["X"] ∧
    (main (some "acme") (some true) "fh-aaa" dfltTeams).err =
      some RunError.typeError := by decide

/-- C6: with `dryrun` absent the run behaves exactly as with `dryrun`
`true`, and in that simulation mode no storage update is ever issued, for
any input collection. -/
theorem dryrun_no_updates (domain? : Option String) (dbName : String)
    (teams : List Team) :
    main domain? none dbName teams = main domain? (some true) dbName teams ∧
    (main domain? (some true) dbName teams).updates = [] := by
  constructor
  · cases domain? <;> rfl
  · cases domain? with
    | none => rfl
    | some d =>
      by_cases hdb : dbName = "fh-aaa"
      · simp [main, hdb, processGroups_dryrun_updates]
      · simp [main, hdb]

/-- C7: a missing domain aborts with `missingDomain` and a wrong database
name aborts with `wrongDatabase`; in both cases the run performs no fetch,
no update and no print. -/
theorem preconditions_abort (dryrun? : Option Bool) (dbName : String)
    (teams : List Team) (domain : String) :
    main none dryrun? dbName teams = ⟨[], [], [], some RunError.missingDomain⟩ ∧
    (dbName ≠ "fh-aaa" →
      main (some domain) dryrun? dbName teams =
        ⟨[], [], [], some RunError.wrongDatabase⟩) := by
  refine ⟨rfl, fun h => ?_⟩
  simp [main, h]

/-- Witness for C7: the two precondition failures at concrete inputs. -/
theorem preconditions_abort_witness :
    main none (some false) "other" [exTeam] =
      ⟨[], [], [], some RunError.missingDomain⟩ ∧
    main (some "acme") (some false) "other" [exTeam] =
      ⟨[], [], [], some RunError.wrongDatabase⟩ :=
  ⟨(preconditions_abort (some false) "other" [exTeam] "acme").1,
   (preconditions_abort (some false) "other" [exTeam] "acme").2 (by decide)⟩

/-- C8: for a team with a non-empty business-objects mapping, the lowest
hierarchy level is defined and is a key of the mapping of greatest string
length among all keys. -/
theorem getLowestLevel_is_max (team : Team) (hne : team.businessObjects ≠ []) :
    (∃ k, getLowestLevel team = some k) ∧
    ∀ k, getLowestLevel team = some k →
      k ∈ team.businessObjects.map Prod.fst ∧
      ∀ x ∈ team.businessObjects.map Prod.fst, x.length ≤ k.length := by
  refine ⟨exists_lowest hne, fun k hk => ?_⟩
  exact head_sortDesc_max hk

/-- Witness for C8: on a team with keys `"aa"` and `"bbb"`, the lowest
level is the longer key `"bbb"`. -/
theorem getLowestLevel_is_max_witness :
    getLowestLevel exTwoLvl = some "bbb" ∧
    ("bbb" ∈ exTwoLvl.businessObjects.map Prod.fst ∧
      ∀ x ∈ exTwoLvl.businessObjects.map Prod.fst, x.length ≤ "bbb".length) :=
  ⟨by decide, (getLowestLevel_is_max exTwoLvl (by decide)).2 "bbb" (by decide)⟩

/-- C9 counterexample: a duplicate group of count 3 is not ignored: the run
classifies it from its first two records and issues a migration update for
the first record. -/
theorem threeGroup_migrates :
    countCode threeTeams "dup" = 3 ∧
    relevantCodes threeTeams = ["dup"] ∧
    (main (some "acme") (some false) "fh-aaa" threeTeams).updates =
      [⟨"t1", { exTeam with code := "acme-g1-g2-Test_Team" }⟩] := by decide

/-- C9 amended: on a group with more than two records, the classifier and
the rewrite behave exactly as on the group made of the first two records;
records past the first two are silently ignored, and no unsupported
cardinality report exists. -/
theorem classifyGroup_uses_first_two (domain : String) (fa fb : Team)
    (rest : List Team) :
    checkDups (fa :: fb :: rest) = checkDups [fa, fb] ∧
    classifyGroup domain (fa :: fb :: rest) = classifyGroup domain [fa, fb] := by
  have h2 : checkDups (fa :: fb :: rest) = checkDups [fa, fb] := by
    simp only [checkDups, List.getElem?_cons_zero, List.getElem?_cons_succ]
  refine ⟨h2, ?_⟩
  simp only [classifyGroup, h2, List.getElem?_cons_zero]

/-- C10: when fewer than two non-default records share the group's code,
the classifier dereferences a missing array element: the group's outcome is
`crash`, and any run whose relevant groups include this code ends with a
`TypeError` instead of skipping the group and completing. -/
theorem thin_group_crashes (domain : String) (teams : List Team) (c : String)
    (h : (nonDefaultWithCode teams c).length < 2) :
    processGroup domain teams c = GroupOutcome.crash ∧
    ∀ (dryrun : Bool) (cs : List String), c ∈ cs →
      (processGroups domain dryrun teams cs).err = some RunError.typeError := by
  have hpc : processGroup domain teams c = GroupOutcome.crash := by
    show classifyGroup domain (nonDefaultWithCode teams c) = GroupOutcome.crash
    cases hd : nonDefaultWithCode teams c with
    | nil => rfl
    | cons t ts =>
      cases ts with
      | nil => rfl
      | cons t2 ts2 =>
        rw [hd] at h
        simp only [List.length_cons] at h
        omega
  refine ⟨hpc, ?_⟩
  intro dryrun cs
  induction cs with
  | nil => intro hc; simp at hc
  | cons c2 cs ih =>
    intro hc
    rw [processGroups]
    rcases List.mem_cons.mp hc with rfl | hc2
    · rw [hpc]
    · cases hpg : processGroup domain teams c2 with
      | skipped => exact ih hc2
      | crash => rfl
      | noAction => simpa using ih hc2
      | migrate cmd =>
        rcases Bool.eq_false_or_eq_true dryrun with hb | hb
        all_goals subst hb
        all_goals simpa using ih hc2

/-- Witness for C10: the all-default group with code `"X"` crashes and its
run ends in a `TypeError`. -/
theorem thin_group_crashes_witness :
    processGroup "acme" dfltTeams "X" = GroupOutcome.crash ∧
    (processGroups "acme" true dfltTeams ["X"]).err = some RunError.typeError :=
  ⟨(thin_group_crashes "acme" dfltTeams "X" (by decide)).1,
   (thin_group_crashes "acme" dfltTeams "X" (by decide)).2 true ["X"] (by decide)⟩

end Migrator
